import Mathlib

/-!
Verification of the VaultKeeper media cataloging pipeline.

Shallow embedding of the cataloging scripts:
  scripts/utils/asset-tracker.py  (catalog store, scan orchestrator,
                                   drive reconciler, transcription pool)
  redline_single_frame.py         (clip grouper, representative selection,
                                   batch thumbnail updates, single frame
                                   extraction supervisor)

Filesystem walks, sqlite rows and external tool invocations are modeled as
explicit data; wall clock readings, child process poll results and tool
outcomes are supplied as oracle inputs so that every control path of the
source can be exercised.  All definitions are executable.
-/

/- ### Generic string and list helpers (Python semantics, ASCII range) -/

/-- Uppercase one ASCII character, as Python str.upper does on ASCII input. -/
def upperCh (c : Char) : Char :=
  if 97 ≤ c.toNat ∧ c.toNat ≤ 122 then Char.ofNat (c.toNat - 32) else c

/-- Lowercase one ASCII character, as Python str.lower does on ASCII input. -/
def lowerCh (c : Char) : Char :=
  if 65 ≤ c.toNat ∧ c.toNat ≤ 90 then Char.ofNat (c.toNat + 32) else c

/-- Python str.upper on a whole string (ASCII range). -/
def pyUpper (s : String) : String :=
  String.mk (s.toList.map upperCh)

/-- Python str.lower on a whole string (ASCII range). -/
def pyLower (s : String) : String :=
  String.mk (s.toList.map lowerCh)

/-- Does the list begin with the given pattern. -/
def listHasPre {α : Type} [DecidableEq α] : List α → List α → Bool
  | [], _ => true
  | _ :: _, [] => false
  | a :: as, b :: bs => if a = b then listHasPre as bs else false

/-- Python s.startswith(pat). -/
def strStartsWith (s pat : String) : Bool :=
  listHasPre pat.toList s.toList

/-- Python s.endswith(pat). -/
def strEndsWith (s pat : String) : Bool :=
  listHasPre pat.toList.reverse s.toList.reverse

/-- Does the pattern occur anywhere in the list (Python substring test). -/
def listHasSub {α : Type} [DecidableEq α] (pat : List α) : List α → Bool
  | [] => listHasPre pat []
  | a :: rest => if listHasPre pat (a :: rest) then true else listHasSub pat rest

/-- Python pat in s (substring containment). -/
def strHasSub (s pat : String) : Bool :=
  listHasSub pat.toList s.toList

/-- Python string comparison: lexicographic on code points. -/
def listLe : List Char → List Char → Bool
  | [], _ => true
  | _ :: _, [] => false
  | a :: as, b :: bs => if a < b then true else if b < a then false else listLe as bs

/-- Python a <= b on strings. -/
def strLe (a b : String) : Bool :=
  listLe a.toList b.toList

/-- Stable insertion into a sorted list: the new element goes before the first
element it compares less-or-equal to, which preserves the original order of
equal keys exactly like Python sorted. -/
def insIn {α : Type} (le : α → α → Bool) (a : α) : List α → List α
  | [] => [a]
  | b :: t => if le a b then a :: b :: t else b :: insIn le a t

/-- Stable sort (insertion sort), modeling Python sorted with a key. -/
def sortBy {α : Type} (le : α → α → Bool) : List α → List α
  | [] => []
  | a :: t => insIn le a (sortBy le t)

/- ### Clip grouper and representative selection (redline_single_frame.py) -/

namespace Redline

/-- A filesystem path split into the normalized directory segments of its
dirname plus its basename, mirroring what the source computes with
os.path.dirname, os.path.normpath(...).split(os.sep) and os.path.basename. -/
structure RPath where
  dirs : List String
  base : String
deriving DecidableEq

/-- A database file reference as returned by the r3d query: (id, path).
File ids are sqlite TEXT primary keys (uuid strings). -/
structure RFile where
  fid : String
  path : RPath
deriving DecidableEq

/-- ASCII uppercase letter class, the regex class for A-Z. -/
def isUpperLetter (c : Char) : Bool :=
  decide ('A' ≤ c ∧ c ≤ 'Z')

/-- ASCII letter class, the regex class for A-Za-z. -/
def isLetterCh (c : Char) : Bool :=
  isUpperLetter c || decide ('a' ≤ c ∧ c ≤ 'z')

/-- ASCII digit class, the regex class for a digit. -/
def isDigitCh (c : Char) : Bool :=
  decide ('0' ≤ c ∧ c ≤ '9')

/-- Does the character list end in the regex pattern dot [Rr] 3 [Dd]. -/
def r3dExtOk (cs : List Char) : Bool :=
  match cs.reverse with
  | cd :: c3 :: cr :: cdot :: _ =>
    (cd = 'd' || cd = 'D') && c3 = '3' && (cr = 'r' || cr = 'R') && cdot = '.'
  | _ => false

/-- file_path.upper().endswith(".R3D"): the gate at the top of
get_rdc_group_key.  The path ends in the basename, so the test is carried
out on the basename. -/
def isR3dName (base : String) : Bool :=
  strEndsWith (pyUpper base) (".R3D")

/-- The clip-prefix regex of get_rdc_group_key applied to a filename:
a match of the anchored pattern Letter digit digit digit underscore Letter
digit digit digit, anything, dot [Rr] 3 [Dd]; on success the captured
nine-character clip prefix is returned.  Letters here are uppercase only,
exactly as in the source pattern. -/
def clipPrefOf (name : String) : Option String :=
  match name.toList with
  | c0 :: c1 :: c2 :: c3 :: c4 :: c5 :: c6 :: c7 :: c8 :: rest =>
    if isUpperLetter c0 && isDigitCh c1 && isDigitCh c2 && isDigitCh c3 &&
       c4 = '_' && isUpperLetter c5 && isDigitCh c6 && isDigitCh c7 &&
       isDigitCh c8 && r3dExtOk rest then
      some (String.mk [c0, c1, c2, c3, c4, c5, c6, c7, c8])
    else none
  | _ => none

/-- The looser main-camera pattern of select_representative_r3d: same shape
but letters of either case. -/
def mainPat (name : String) : Bool :=
  match name.toList with
  | c0 :: c1 :: c2 :: c3 :: c4 :: c5 :: c6 :: c7 :: c8 :: rest =>
    isLetterCh c0 && isDigitCh c1 && isDigitCh c2 && isDigitCh c3 &&
    c4 = '_' && isLetterCh c5 && isDigitCh c6 && isDigitCh c7 &&
    isDigitCh c8 && r3dExtOk rest
  | _ => false

/-- Is a directory segment an RDC folder: named RDC, or ending in .RDC,
after uppercasing (the test in get_rdc_group_key). -/
def isRdcSeg (part : String) : Bool :=
  pyUpper part = ("RDC") || strEndsWith (pyUpper part) (".RDC")

/-- The first RDC folder segment among the dirname segments (the source
breaks out of its loop at the first hit). -/
def findRdc (parts : List String) : Option String :=
  parts.find? isRdcSeg

/-- get_rdc_group_key: grouping key for one r3d file, none when the file is
not an r3d file or sits in no RDC folder. -/
def get_rdc_group_key (p : RPath) : Option String :=
  if isR3dName p.base then
    match findRdc p.dirs with
    | none => none
    | some folder =>
      match clipPrefOf p.base with
      | some c => some (folder ++ "_" ++ c)
      | none => some folder
  else none

/-- The synthetic key used for files outside RDC folders: "single_" plus the
file id. -/
def singleKey (e : RFile) : String :=
  "single_" ++ e.fid

/-- Grouping dictionaries preserve insertion order (Python dict): an
association list. -/
abbrev Groups : Type :=
  List (String × List RFile)

/-- Append a member to the entry of a key, creating the entry at the end
when the key is new (grouped_files[k].append(e) after creating the list). -/
def dictAppend (d : Groups) (k : String) (e : RFile) : Groups :=
  match d with
  | [] => [(k, [e])]
  | (k2, v) :: t => if k2 = k then (k2, v ++ [e]) :: t else (k2, v) :: dictAppend t k e

/-- Assign a value to a key, overwriting in place or appending at the end
(grouped_files[k] = v). -/
def dictSet (d : Groups) (k : String) (v : List RFile) : Groups :=
  match d with
  | [] => [(k, v)]
  | (k2, v2) :: t => if k2 = k then (k2, v) :: t else (k2, v2) :: dictSet t k v

/-- The keys of a grouping dictionary, in order. -/
def keysG (d : Groups) : List String :=
  d.map (fun kv => kv.1)

/-- Lookup in a grouping dictionary. -/
def lookupG (d : Groups) (k : String) : Option (List RFile) :=
  match d with
  | [] => none
  | (k2, v) :: t => if k2 = k then some v else lookupG t k

/-- One iteration of the grouping loop of group_r3d_files_by_rdc. -/
def groupStep (d : Groups) (e : RFile) : Groups :=
  match get_rdc_group_key e.path with
  | some k => dictAppend d k e
  | none => dictSet d (singleKey e) [e]

/-- group_r3d_files_by_rdc: fold the grouping step over the query result. -/
def group_r3d_files_by_rdc (files : List RFile) : Groups :=
  files.foldl groupStep []

/-- Occurrence count of a member in a list. -/
def cnt (x : RFile) : List RFile → Nat
  | [] => 0
  | y :: t => (if y = x then 1 else 0) + cnt x t

/-- Total occurrence count of a member over all groups of a dictionary. -/
def memCount (d : Groups) (x : RFile) : Nat :=
  match d with
  | [] => 0
  | (_, v) :: t => cnt x v + memCount t x

/-- Comparison on members by basename, the sort key of
select_representative_r3d. -/
def baseLe (a b : RFile) : Bool :=
  strLe a.path.base b.path.base

/-- The sorted member list of a group (Python sorted by basename). -/
def sortByBase (g : List RFile) : List RFile :=
  sortBy baseLe g

/-- select_representative_r3d: for a singleton group return its only member;
otherwise sort by basename, keep the members matching the main-camera
pattern (all members when none match) and take the element at the middle
index. -/
def select_representative_r3d (g : List RFile) : Option RFile :=
  match g with
  | [] => none
  | [e] => some e
  | _ :: _ :: _ =>
    let sortedFiles := sortByBase g
    let mainFiles := sortedFiles.filter (fun e => mainPat e.path.base)
    let toProc := if mainFiles.isEmpty then sortedFiles else mainFiles
    toProc[toProc.length / 2]?

/-- The representative choice as worded by the specification: sort members
by filename, filter to the strict main-camera pattern falling back to the
unfiltered sorted list, pick the element at the middle index. -/
def specRepresentative (g : List RFile) : Option RFile :=
  let sortedFiles := sortByBase g
  let mainFiles := sortedFiles.filter (fun e => mainPat e.path.base)
  let toProc := if mainFiles.isEmpty then sortedFiles else mainFiles
  toProc[toProc.length / 2]?

/- ### Batch thumbnail updates (update_thumbnails_for_rdc_group) -/

/-- A files-table row as seen by the thumbnail updater: id plus the
thumbnail_path column. -/
structure TRow where
  id : String
  thumb : Option String
deriving DecidableEq

/-- Chunking worker, structurally recursive on a fuel bound (the list
length always suffices as fuel for a positive chunk size). -/
def chunksOfAux {α : Type} (n : Nat) : Nat → List α → List (List α)
  | 0, _ => []
  | _, [] => []
  | fuel + 1, a :: tl => (a :: tl).take n :: chunksOfAux n fuel ((a :: tl).drop n)

/-- Successive chunks of at most n elements, matching the Python slicing
file_ids[i:i+batch_size] for i in range(0, len, batch_size). -/
def chunksOf {α : Type} (n : Nat) (l : List α) : List (List α) :=
  if n = 0 then [] else chunksOfAux n l.length l

/-- UPDATE files SET thumbnail_path = t WHERE id IN ids, applied to the row
list. -/
def setThumb (rows : List TRow) (ids : List String) (t : String) : List TRow :=
  rows.map (fun r => if r.id ∈ ids then { r with thumb := some t } else r)

/-- cursor.rowcount of that UPDATE: the number of rows matched. -/
def matchedCount (rows : List TRow) (ids : List String) : Nat :=
  (rows.filter (fun r => decide (r.id ∈ ids))).length

/-- One indexed chunk of the batch loop: a successful execute commits the
update of that chunk and adds the rowcount; a failing execute rolls back
only that chunk, leaving the accumulator untouched. -/
def updStep (t : String) (chunkOk : Nat → Bool) (acc : List TRow × Nat)
    (ib : Nat × List String) : List TRow × Nat :=
  if chunkOk ib.1 then (setThumb acc.1 ib.2 t, acc.2 + matchedCount acc.1 ib.2)
  else acc

/-- update_thumbnails_for_rdc_group: nothing on an empty id list, otherwise
chunks of at most 100 ids, each executed and committed on its own; a chunk
whose execution fails (chunkOk gives false for its index) is rolled back
alone while all other chunks stay committed; the returned number accumulates
the rowcounts of the successful chunks. -/
def update_thumbnails_for_rdc_group (rows : List TRow) (ids : List String)
    (t : String) (chunkOk : Nat → Bool) : List TRow × Nat :=
  if ids = [] then (rows, 0)
  else ((chunksOf 100 ids).enum).foldl (updStep t chunkOk) (rows, 0)

/-- The ids carried by the chunks whose execution succeeded. -/
def succOf (chunkOk : Nat → Bool) (cl : List (Nat × List String)) : List String :=
  ((cl.filter (fun ib => chunkOk ib.1)).map (fun ib => ib.2)).flatten

/-- The rowcount total accumulated over the successful chunks, each counted
against the row set (row ids never change during the loop). -/
def sumMatched (rows : List TRow) (chunkOk : Nat → Bool) :
    List (Nat × List String) → Nat
  | [] => 0
  | ib :: tl =>
    (if chunkOk ib.1 then matchedCount rows ib.2 else 0) + sumMatched rows chunkOk tl

/-- The ids belonging to the chunks that committed. -/
def successIds (ids : List String) (chunkOk : Nat → Bool) : List String :=
  succOf chunkOk ((chunksOf 100 ids).enum)

/-- The per-group tail of process_r3d_thumbnails: when extraction produced a
thumbnail, apply it to every member id of the group through the batch
updater; when extraction failed, the store is left untouched. -/
def applyGroupThumbnail (rows : List TRow) (memberIds : List String)
    (extractRes : Option String) (chunkOk : Nat → Bool) : List TRow :=
  match extractRes with
  | some t => (update_thumbnails_for_rdc_group rows memberIds t chunkOk).1
  | none => rows

/- ### Single frame extraction supervisor (extract_single_frame) -/

/-- A candidate output file in the private temporary directory: name and
byte size. -/
structure FrameFile where
  name : String
  size : Nat
deriving DecidableEq

/-- One iteration of the supervision loop, in source order: the poll result
at the top of the loop, the elapsed wall-clock seconds at the timeout test,
and the glob of the temporary directory after the sleep. -/
structure Obs where
  poll : Option Int
  elapsed : Nat
  frames : List FrameFile
deriving DecidableEq

/-- The first non-empty output frame in sorted filename order, as the source
scans sorted(generated_frames) for a file of positive size. -/
def firstValidFrame (fs : List FrameFile) : Option String :=
  ((sortBy (fun a b => strLe a.name b.name) fs).find?
    (fun f => decide (f.size > 0))).map (fun f => f.name)

/-- How the supervision loop ended. -/
inductive RunOutcome where
  | found (frame : String)
  | timedOut
  | exited (code : Int) (frames : List FrameFile)
  | incomplete
deriving DecidableEq

/-- The while loop of extract_single_frame over a trace of observations:
a non-none poll leaves the loop with the exit code; otherwise the deadline
test fires when elapsed exceeds the timeout, terminating the child; otherwise
a non-empty output frame is copied out and the child terminated; otherwise
the loop continues.  A trace too short to decide the run is incomplete. -/
def loopRun (timeout : Nat) : List Obs → RunOutcome
  | [] => .incomplete
  | o :: rest =>
    match o.poll with
    | some code => .exited code o.frames
    | none =>
      if o.elapsed > timeout then .timedOut
      else
        match firstValidFrame o.frames with
        | some f => .found f
        | none => loopRun timeout rest

/-- The observable result of extract_single_frame: the returned thumbnail
path, whether the child was terminated by the supervisor, and whether the
private temporary directory was removed. -/
structure ExtractOut where
  result : Option String
  terminated : Bool
  tempRemoved : Bool
deriving DecidableEq

/-- extract_single_frame over a trace: a frame found inside the loop is
copied to the final path and the child terminated; an elapsed deadline
terminates the child and reports failure; a zero exit code triggers one last
scan for a valid frame; any other exit reports failure.  The finally block
removes the temporary directory on every path. -/
def extract_single_frame (timeout : Nat) (finalPath : String)
    (trace : List Obs) : ExtractOut :=
  match loopRun timeout trace with
  | .found _ => ⟨some finalPath, true, true⟩
  | .timedOut => ⟨none, true, true⟩
  | .exited code fs =>
    if code = 0 then
      match firstValidFrame fs with
      | some _ => ⟨some finalPath, false, true⟩
      | none => ⟨none, false, true⟩
    else ⟨none, false, true⟩
  | .incomplete => ⟨none, false, true⟩

/- ### Concrete instances used by witnesses and counterexamples -/

/-- A conforming clip chunk inside an RDC bundle. -/
def demoR1 : RFile :=
  ⟨"id1", ⟨["shoot", "A001_0525.RDC"], "A001_C001_0525_001.R3D"⟩⟩

/-- A loose r3d file outside any RDC folder. -/
def demoR2 : RFile :=
  ⟨"id2", ⟨["loose"], "clip.R3D"⟩⟩

/-- A two-file query result exercising both grouping branches. -/
def demoFiles : List RFile :=
  [demoR1, demoR2]

/-- Five conforming chunks of one clip, deliberately out of order. -/
def demoGroup5 : List RFile :=
  [⟨"a", ⟨["R"], "A001_C001_03.R3D"⟩⟩, ⟨"b", ⟨["R"], "A001_C001_01.R3D"⟩⟩,
   ⟨"c", ⟨["R"], "A001_C001_05.R3D"⟩⟩, ⟨"d", ⟨["R"], "A001_C001_02.R3D"⟩⟩,
   ⟨"e", ⟨["R"], "A001_C001_04.R3D"⟩⟩]

end Redline

/- ### Catalog store and scan orchestrator (scripts/utils/asset-tracker.py) -/

namespace Tracker

/-- A row of the drives table.  Schema from init_db: id is the TEXT primary
key; no other uniqueness constraint exists, in particular volume_name is not
unique.  Timestamp columns not bearing on any claim (last_verified, notes,
qr_code_path) are left out of the embedding. -/
structure DriveRow where
  id : String
  label : Option String
  volume_name : String
  size_bytes : Nat
  free_bytes : Nat
  format : String
  mount_point : String
  date_cataloged : String
deriving DecidableEq

/-- The candidate drive dictionary built by get_drive_info before duplicate
handling; it carries no label key initially (label none). -/
structure DriveInfo where
  id : String
  volume_name : String
  size_bytes : Nat
  free_bytes : Nat
  format : String
  mount_point : String
  date_cataloged : String
  label : Option String
deriving DecidableEq

/-- A row of the files table.  Schema from init_db: id is the TEXT primary
key; path carries no uniqueness constraint.  The uuid4 ids handed out by
catalog_files are modeled as an inexhaustible supply of fresh identifiers,
represented by naturals drawn from a counter.  Timestamp and media_info
columns bearing on no claim are left out. -/
structure FileRow where
  id : Nat
  drive_id : String
  path : String
  filename : String
  extension : String
  size_bytes : Nat
  checksum : Option String
  mime_type : String
  thumbnail_path : Option String
  transcription_status : Option String
  transcription : Option String
deriving DecidableEq

/-- The catalog store: the drives and files tables. -/
structure Db where
  drives : List DriveRow
  files : List FileRow
deriving DecidableEq

/-- INSERT OR REPLACE INTO drives: the primary key id is the only conflict
target, so any row with the same id is replaced. -/
def insertOrReplaceDrive (ds : List DriveRow) (d : DriveRow) : List DriveRow :=
  (ds.filter (fun r => decide (r.id ≠ d.id))) ++ [d]

/-- INSERT OR REPLACE INTO files: the primary key id is the only conflict
target (path has no unique index), so only a row with the same id is
replaced. -/
def insertOrReplaceFile (fs : List FileRow) (r : FileRow) : List FileRow :=
  (fs.filter (fun x => decide (x.id ≠ r.id))) ++ [r]

/-- SELECT * FROM drives WHERE volume_name = ?, the query of
check_for_duplicate_drive. -/
def check_for_duplicate_drive (ds : List DriveRow) (volName : String) : List DriveRow :=
  ds.filter (fun r => decide (r.volume_name = volName))

/-- The duplicate decision: 1 = replace, 2 = new entry, 3 = skip.  Batch
mode takes it from a preconfigured default; interactive mode reads the same
code from input. -/
inductive DupChoice where
  | replace
  | createNew
  | skip
deriving DecidableEq

/-- Python truthiness of the label field: present and non-empty. -/
def labelTruthy : Option String → Bool
  | none => false
  | some s => decide (s ≠ "")

/-- handle_duplicate_drive on a non-empty duplicate list: replace reuses the
id of the first listed duplicate and, when the prior entry carries a custom
label (truthy and different from its volume name) while the candidate has
none, also its label; new keeps the candidate unchanged; skip returns none.
The optional clearing of prior file rows is a separate store call and not
part of the returned drive info. -/
def handle_duplicate_drive (dups : List DriveRow) (info : DriveInfo)
    (choice : DupChoice) : Option DriveInfo :=
  match choice with
  | .skip => none
  | .createNew => some info
  | .replace =>
    match dups with
    | [] => none
    | d :: _ =>
      let info1 : DriveInfo := { info with id := d.id }
      let info2 : DriveInfo :=
        if labelTruthy d.label = true ∧ d.label ≠ some d.volume_name ∧
           labelTruthy info.label = false then
          { info1 with label := d.label }
        else info1
      some info2

/-- The duplicate-resolution tail of get_drive_info: query drives sharing
the candidate volume name; with no duplicates the candidate is returned
unchanged, otherwise handle_duplicate_drive decides. -/
def get_drive_info_resolve (existing : List DriveRow) (cand : DriveInfo)
    (choice : DupChoice) : Option DriveInfo :=
  let dups := check_for_duplicate_drive existing cand.volume_name
  if dups.isEmpty then some cand else handle_duplicate_drive dups cand choice

/- ### Per-file classification and thumbnails during the scan -/

/-- Index of the last dot in a character list. -/
def lastDotIdx (cs : List Char) : Option Nat :=
  match cs.reverse.findIdx? (fun c => decide (c = '.')) with
  | none => none
  | some j => some (cs.length - 1 - j)

/-- os.path.splitext on a basename followed by .lower().lstrip(dot), the
extension computation of catalog_files: the part after the last dot,
lowercased, empty when every character before that dot is itself a dot
(leading-dot names have no extension). -/
def extensionOf (name : String) : String :=
  let cs := name.toList
  match lastDotIdx cs with
  | none => ""
  | some i =>
    if (cs.take i).all (fun c => decide (c = '.')) then ("")
    else pyLower (String.mk ((cs.drop i).dropWhile (fun c => decide (c = '.'))))

/-- A file met by the os.walk traversal: its path segments relative to the
mount point (last segment is the filename) and its size. -/
structure WalkFile where
  relParts : List String
  size_bytes : Nat
deriving DecidableEq

/-- Join path segments with the separator. -/
def joinParts : List String → String
  | [] => ""
  | [p] => p
  | p :: q :: rest => p ++ "/" ++ joinParts (q :: rest)

/-- The relative path string of a walked file. -/
def wfPath (w : WalkFile) : String :=
  joinParts w.relParts

/-- The filename of a walked file. -/
def wfName (w : WalkFile) : String :=
  (w.relParts.getLast? ).getD ("")

/-- The per-file skip test of catalog_files: any hidden segment, or a Final
Cut Pro bundle or cache occurring in the relative path. -/
def skipFile (relParts : List String) : Bool :=
  relParts.any (fun part => strStartsWith part (".")) ||
  strHasSub (joinParts relParts) (".fcpbundle/") ||
  strHasSub (joinParts relParts) (".fcpcache/")

/-- Outcomes of the external collaborators consulted during a scan:
mimetypes.guess_type, checksum hashing, the two ffmpeg invocation shapes for
r3d files, ffmpeg for ordinary video, and the random thumbnail filename. -/
structure ScanEnv where
  guessMime : String → Option String
  sumOf : String → String
  r3dTry1 : String → Bool
  r3dTry2 : String → Bool
  videoThumb : String → Option String
  thumbName : String → String

/-- generate_r3d_thumbnail: a file larger than one GiB is skipped outright
with no tool invocation; otherwise the specialized ffmpeg attempt runs and,
if it fails, the minimal-argument attempt; both failing yields none.  The
second component counts the extraction tool invocations made. -/
def generate_r3d_thumbnail (size_bytes : Nat) (try1Ok try2Ok : Bool)
    (thumbPath : String) : Option String × Nat :=
  if size_bytes > 1024 * 1024 * 1024 then (none, 0)
  else if try1Ok then (some thumbPath, 1)
  else if try2Ok then (some thumbPath, 2)
  else (none, 2)

/-- The file row written by one iteration of the cataloging loop: fresh id
from the supply, relative path, lowercased extension, the fixed synthetic
mime for r3d files, checksum only under 500 MB, thumbnail via the r3d or
video generator, and transcription_status pending exactly for audio and
video mimes. -/
def catalogRow (env : ScanEnv) (d : DriveInfo) (fresh : Nat) (w : WalkFile) : FileRow :=
  let path := wfPath w
  let name := wfName w
  let ext := extensionOf name
  let isR3d := ext = ("r3d")
  let mime := if isR3d then ("video/x-red-r3d")
              else (env.guessMime path).getD ("application/octet-stream")
  let checksum := if w.size_bytes < 500000000 then some (env.sumOf path) else none
  let thumb :=
    if isR3d then
      (generate_r3d_thumbnail w.size_bytes (env.r3dTry1 path) (env.r3dTry2 path)
        (env.thumbName path)).1
    else if strStartsWith mime ("video/") then env.videoThumb path
    else none
  let status :=
    if strStartsWith mime ("video/") || strStartsWith mime ("audio/") then
      some ("pending")
    else none
  ⟨fresh, d.id, path, name, ext, w.size_bytes, checksum, mime, thumb, status, none⟩

/-- The drives-table row written at the start of catalog_files; the stored
label defaults to the volume name. -/
def driveRowOfInfo (d : DriveInfo) : DriveRow :=
  ⟨d.id, some (d.label.getD d.volume_name), d.volume_name, d.size_bytes,
   d.free_bytes, d.format, d.mount_point, d.date_cataloged⟩

/-- catalog_files: a none drive info (skip or cancel during duplicate
handling) returns 0 with no store write; otherwise the drive row is
upserted and every non-skipped walked file gets a freshly keyed INSERT OR
REPLACE.  Result: (total files cataloged, store, next fresh id). -/
def catalog_files (env : ScanEnv) (info : Option DriveInfo)
    (walk : List WalkFile) (db : Db) (fresh : Nat) : Nat × Db × Nat :=
  match info with
  | none => (0, db, fresh)
  | some d =>
    let db1 : Db := ⟨insertOrReplaceDrive db.drives (driveRowOfInfo d), db.files⟩
    walk.foldl
      (fun acc w =>
        if skipFile w.relParts then acc
        else
          (acc.1 + 1,
           ⟨acc.2.1.drives, insertOrReplaceFile acc.2.1.files (catalogRow env d acc.2.2 w)⟩,
           acc.2.2 + 1))
      (0, db1, fresh)

/- ### Concrete instances used by witnesses and counterexamples -/

/-- A candidate drive as built by get_drive_info (no label yet). -/
def demoDrive : DriveInfo :=
  ⟨"D1", "VOL", 1000, 500, "apfs", "/mnt/vol", "2026-01-01", none⟩

/-- External collaborators for the demo scans: unknown mime everywhere,
failing ffmpeg attempts. -/
def demoEnv : ScanEnv :=
  ⟨fun _ => none, fun _ => "sum", fun _ => false, fun _ => false,
   fun _ => none, fun _ => "t.jpg"⟩

/-- One ordinary file on the drive. -/
def demoWalk : List WalkFile :=
  [⟨["A", "clip.mov"], 10⟩]

/-- First cataloging run of the drive into an empty store. -/
def demoScan1 : Nat × Db × Nat :=
  catalog_files demoEnv (some demoDrive) demoWalk ⟨[], []⟩ 0

/-- Re-running the catalog of the same mount point with the same resolved
drive id (a replace decision keeping the existing files, the documented
rescan path) against the store the first run produced. -/
def demoScan2 : Nat × Db × Nat :=
  catalog_files demoEnv (some demoDrive) demoWalk demoScan1.2.1 demoScan1.2.2

/-- A previously cataloged drive sharing the volume name VOL and carrying a
custom label. -/
def demoPrior : DriveRow :=
  ⟨"OLD", some ("My Label"), "VOL", 900, 100, "apfs", "/mnt/old", "2025-01-01"⟩

end Tracker

/- ### Transcription pool (process_transcriptions / process_file) -/

namespace Pool

open Tracker

/-- UPDATE files SET transcription_status = st WHERE id = i: the claim,
completion and error writes of process_file.  The WHERE clause names only
the id; no condition on the current status exists. -/
def setStatus (fs : List FileRow) (i : Nat) (st : String) : List FileRow :=
  fs.map (fun r => if r.id = i then { r with transcription_status := some st } else r)

/-- The pending snapshot of process_transcriptions: rows whose
transcription_status is pending, ordered by size ascending (modeled as a
stable sort). -/
def pendingIds (fs : List FileRow) : List Nat :=
  ((sortBy (fun a b => decide (a.size_bytes ≤ b.size_bytes))
      (fs.filter (fun r => decide (r.transcription_status = some ("pending"))))).map
    (fun r => r.id))

/-- The state of one pool run: the snapshot remainder still to hand out
(none before the snapshot query), the file currently being transcribed, the
claim updates issued so far, and the per-file results reported back to the
run (file id, success). -/
structure TState where
  queued : Option (List Nat)
  inFlight : Option Nat
  claimed : List Nat
  done : List (Nat × Bool)
deriving DecidableEq

/-- A pool run before its snapshot query. -/
def initT : TState :=
  ⟨none, none, [], []⟩

/-- One atomic step of a pool run against the shared store.  Before the
snapshot: read the pending rows.  With a queued file: a resolvable source
is claimed by the unconditional processing update (committed at once); an
unresolvable source is marked error without a claim.  With a file in
flight: transcription finishes and the completed or error status is
written.  srcOk tells whether the file path resolves, transOk whether
whisper succeeds. -/
def tstep (fs : List FileRow) (t : TState) (srcOk transOk : Nat → Bool) :
    List FileRow × TState :=
  match t.queued, t.inFlight with
  | none, _ =>
    (fs, { t with queued := some (pendingIds fs) })
  | some (i :: rest), none =>
    if srcOk i then
      (setStatus fs i ("processing"),
       { t with queued := some rest, inFlight := some i, claimed := t.claimed ++ [i] })
    else
      (setStatus fs i ("error"),
       { t with queued := some rest, done := t.done ++ [(i, false)] })
  | some q, some i =>
    let ok := transOk i
    (setStatus fs i (if ok then ("completed") else ("error")),
     { t with queued := some q, inFlight := none, done := t.done ++ [(i, ok)] })
  | some [], none => (fs, t)

/-- Two pool runs sharing one store. -/
structure Sys where
  files : List FileRow
  t0 : TState
  t1 : TState
deriving DecidableEq

/-- Let one of the two runs take its next atomic step. -/
def sysStep (srcOk transOk : Nat → Bool) (s : Sys) (who : Bool) : Sys :=
  if who then
    let (fs, t) := tstep s.files s.t1 srcOk transOk
    ⟨fs, s.t0, t⟩
  else
    let (fs, t) := tstep s.files s.t0 srcOk transOk
    ⟨fs, t, s.t1⟩

/-- Run an interleaving schedule of the two pool runs. -/
def runSched (s : Sys) (sched : List Bool) (srcOk transOk : Nat → Bool) : Sys :=
  sched.foldl (sysStep srcOk transOk) s

/-- The status of a file id in the store. -/
def statusOf (fs : List FileRow) (i : Nat) : Option String :=
  match fs.find? (fun r => decide (r.id = i)) with
  | some r => r.transcription_status
  | none => none

/-- The file ids of a store are pairwise distinct (id is the primary key of
the files table). -/
def idsNodup (fs : List FileRow) : Prop :=
  (fs.map (fun r => r.id)).Nodup

/-- Run invariant: before the snapshot nothing is claimed; afterwards the
claim log is duplicate-free, the remaining queue is duplicate-free, and no
queued id was already claimed. -/
def TInv (t : TState) : Prop :=
  match t.queued with
  | none => t.claimed = []
  | some q => t.claimed.Nodup ∧ q.Nodup ∧ ∀ i ∈ t.claimed, i ∉ q

/-- System invariant for two interleaved pool runs. -/
def SysInv (s : Sys) : Prop :=
  idsNodup s.files ∧ TInv s.t0 ∧ TInv s.t1

/- ### Concrete instances used by witnesses and counterexamples -/

/-- One pending video row in the store. -/
def cxRow : FileRow :=
  ⟨1, "D1", "a.mov", "a.mov", "mov", 10, none, "video/quicktime", none,
   some ("pending"), none⟩

/-- Both runs snapshot the single pending row before either claims it, then
each claims, transcribes and completes it in turn. -/
def cxSys : Sys :=
  runSched ⟨[cxRow], initT, initT⟩ [false, true, false, false, true, true]
    (fun _ => true) (fun _ => true)

/-- The same schedule stopped after the first run has completed the file but
before the second run claims it. -/
def cxSys4 : Sys :=
  runSched ⟨[cxRow], initT, initT⟩ [false, true, false, false]
    (fun _ => true) (fun _ => true)

end Pool

open Redline Tracker Pool

/- ### Helper lemmas on the generic sorting routine -/

theorem mem_insIn {α : Type} (le : α → α → Bool) (a x : α) (l : List α) :
    x ∈ insIn le a l ↔ x = a ∨ x ∈ l := by
  induction l with
  | nil => simp [insIn]
  | cons b t ih =>
    by_cases h : le a b = true
    · simp [insIn, h]
    · simp only [insIn, h]
      simp only [Bool.false_eq_true, if_false, List.mem_cons, ih]
      tauto

theorem perm_insIn {α : Type} (le : α → α → Bool) (a : α) (l : List α) :
    List.Perm (insIn le a l) (a :: l) := by
  induction l with
  | nil => simp [insIn]
  | cons b t ih =>
    by_cases h : le a b = true
    · simp [insIn, h]
    · simp only [insIn, h, Bool.false_eq_true, if_false]
      exact (ih.cons b).trans (List.Perm.swap a b t)

theorem perm_sortBy {α : Type} (le : α → α → Bool) (l : List α) :
    List.Perm (sortBy le l) l := by
  induction l with
  | nil => simp [sortBy]
  | cons a t ih => exact (perm_insIn le a (sortBy le t)).trans (ih.cons a)

theorem mem_sortBy {α : Type} (le : α → α → Bool) (x : α) (l : List α) :
    x ∈ sortBy le l ↔ x ∈ l :=
  (perm_sortBy le l).mem_iff

theorem length_sortBy {α : Type} (le : α → α → Bool) (l : List α) :
    (sortBy le l).length = l.length :=
  (perm_sortBy le l).length_eq

/- ### Helper lemmas on chunking -/

theorem chunksOfAux_flatten {α : Type} (n : Nat) (hn : n ≠ 0) :
    ∀ (fuel : Nat) (l : List α), l.length ≤ fuel →
      (Redline.chunksOfAux n fuel l).flatten = l := by
  intro fuel
  induction fuel with
  | zero =>
    intro l hl
    have hl0 : l = [] := List.length_eq_zero.mp (Nat.le_zero.mp hl)
    subst hl0
    rfl
  | succ fuel ih =>
    intro l hl
    cases l with
    | nil => rfl
    | cons a tl =>
      simp only [List.length_cons] at hl
      have hlen : ((a :: tl).drop n).length ≤ fuel := by
        simp only [List.length_drop, List.length_cons]
        omega
      simp only [Redline.chunksOfAux, List.flatten_cons]
      rw [ih _ hlen, List.take_append_drop]

theorem chunksOf_flatten {α : Type} (n : Nat) (l : List α) (hn : n ≠ 0) :
    (Redline.chunksOf n l).flatten = l := by
  unfold Redline.chunksOf
  rw [if_neg hn]
  exact chunksOfAux_flatten n hn l.length l (Nat.le_refl _)

theorem chunksOfAux_mem_len {α : Type} (n : Nat) :
    ∀ (fuel : Nat) (l : List α) (b : List α),
      b ∈ Redline.chunksOfAux n fuel l → b.length ≤ n := by
  intro fuel
  induction fuel with
  | zero =>
    intro l b hb
    simp [Redline.chunksOfAux] at hb
  | succ fuel ih =>
    intro l b hb
    cases l with
    | nil => simp [Redline.chunksOfAux] at hb
    | cons a tl =>
      simp only [Redline.chunksOfAux, List.mem_cons] at hb
      rcases hb with hb | hb
      · subst hb
        simp only [List.length_take]
        omega
      · exact ih _ b hb

theorem chunksOf_mem_len {α : Type} (n : Nat) (l : List α) (b : List α)
    (hb : b ∈ Redline.chunksOf n l) : b.length ≤ n := by
  unfold Redline.chunksOf at hb
  by_cases hn : n = 0
  · rw [if_pos hn] at hb
    simp at hb
  · rw [if_neg hn] at hb
    exact chunksOfAux_mem_len n l.length l b hb

/- ### C9: cancelled duplicate handling short-circuits the scan -/

/-- C9: catalog_files invoked with a none drive info (the skip or cancel
outcome of duplicate handling) returns 0 and performs no store write: the
store and the id supply come back unchanged. -/
theorem catalog_none_short_circuit (env : ScanEnv) (walk : List WalkFile)
    (db : Db) (fresh : Nat) :
    catalog_files env none walk db fresh = (0, db, fresh) := rfl

/- ### C1: rescanning duplicates file rows instead of upserting -/

/-- C1: the files table keys INSERT OR REPLACE only on the always-fresh
uuid primary key and has no unique constraint on (drive_id, path), so
cataloging the same mount point twice for the same drive id leaves two rows
with the same relative path: the claimed one-row-per-path upsert invariant
fails on the code.  Evaluated: one file walked, first scan writes one row,
the rescan leaves two rows for (D1, A/clip.mov) with distinct ids. -/
theorem rescan_duplicates_file_row :
    demoScan1.1 = 1 ∧
    ((demoScan2.2.1).files.map (fun r => r.id)) = [0, 1] ∧
    ((demoScan2.2.1).files.filter
      (fun r => decide (r.drive_id = ("D1") ∧ r.path = ("A/clip.mov")))).length = 2 := by
  decide

/- ### C10: oversized r3d files skip thumbnail extraction -/

/-- C10: generate_r3d_thumbnail returns none with zero extraction tool
invocations for any r3d file above one GiB, invokes the tool at least once
at or below that size, and the catalog row written for such an oversized
r3d file carries a null thumbnail path. -/
theorem large_r3d_skips_thumbnail (env : ScanEnv) (d : DriveInfo) (fresh : Nat)
    (w : WalkFile) (sz : Nat) (a1 a2 : Bool) (nm : String) :
    (sz > 1024 * 1024 * 1024 → generate_r3d_thumbnail sz a1 a2 nm = (none, 0)) ∧
    (sz ≤ 1024 * 1024 * 1024 → 1 ≤ (generate_r3d_thumbnail sz a1 a2 nm).2) ∧
    (extensionOf (wfName w) = ("r3d") → w.size_bytes > 1024 * 1024 * 1024 →
      (catalogRow env d fresh w).thumbnail_path = none) := by
  refine ⟨?_, ?_, ?_⟩
  · intro h
    simp [generate_r3d_thumbnail, h]
  · intro h
    have hn : ¬ sz > 1024 * 1024 * 1024 := by omega
    by_cases h1 : a1 = true <;> by_cases h2 : a2 = true <;>
      simp [generate_r3d_thumbnail, hn, h1, h2]
  · intro hext hsz
    simp [catalogRow, hext, generate_r3d_thumbnail, hsz]

/-- C10 witness: a 1 GiB + 1 byte r3d file is skipped with zero tool calls
and cataloged with a null thumbnail path. -/
theorem large_r3d_skips_thumbnail_witness :
    ((1024 * 1024 * 1024 + 1 : Nat) > 1024 * 1024 * 1024 ∧
      generate_r3d_thumbnail (1024 * 1024 * 1024 + 1) true true ("t") = (none, 0)) ∧
    (extensionOf (wfName ⟨["B", "big.r3d"], 1024 * 1024 * 1024 + 1⟩) = ("r3d") ∧
      (catalogRow demoEnv demoDrive 0
        ⟨["B", "big.r3d"], 1024 * 1024 * 1024 + 1⟩).thumbnail_path = none) :=
  ⟨⟨by decide,
    (large_r3d_skips_thumbnail demoEnv demoDrive 0 ⟨["B", "big.r3d"], 1024 * 1024 * 1024 + 1⟩
      (1024 * 1024 * 1024 + 1) true true ("t")).1 (by decide)⟩,
   ⟨by decide,
    (large_r3d_skips_thumbnail demoEnv demoDrive 0 ⟨["B", "big.r3d"], 1024 * 1024 * 1024 + 1⟩
      (1024 * 1024 * 1024 + 1) true true ("t")).2.2 (by decide) (by decide)⟩⟩

/- ### C8: duplicate drive reconciliation -/

/-- C8: with no existing drive sharing the candidate volume name the
resolver returns the candidate unchanged for every decision; with exactly
one prior drive and a replace decision the returned info carries the prior
drive id and, when the candidate has no label while the prior entry carries
a custom one, the prior label. -/
theorem resolve_drive_reconciliation (existing : List DriveRow) (cand : DriveInfo) :
    (check_for_duplicate_drive existing cand.volume_name = [] →
      ∀ choice, get_drive_info_resolve existing cand choice = some cand) ∧
    (∀ d, check_for_duplicate_drive existing cand.volume_name = [d] →
      ∃ r, get_drive_info_resolve existing cand DupChoice.replace = some r ∧
        r.id = d.id ∧
        (labelTruthy cand.label = false → labelTruthy d.label = true →
          d.label ≠ some d.volume_name → r.label = d.label)) := by
  constructor
  · intro h choice
    simp [get_drive_info_resolve, h]
  · intro d h
    by_cases hcond : (labelTruthy d.label = true ∧ d.label ≠ some d.volume_name ∧
        labelTruthy cand.label = false)
    · refine ⟨{ cand with id := d.id, label := d.label }, ?_, rfl, fun _ _ _ => rfl⟩
      simp [get_drive_info_resolve, h, handle_duplicate_drive, if_pos hcond]
    · refine ⟨{ cand with id := d.id }, ?_, rfl, fun h1 h2 h3 => absurd ⟨h2, h3, h1⟩ hcond⟩
      simp [get_drive_info_resolve, h, handle_duplicate_drive, if_neg hcond]

/-- C8 witness: no prior drive leaves the candidate untouched; one prior
drive with volume name VOL and custom label yields its id and label under a
replace decision. -/
theorem resolve_drive_reconciliation_witness :
    (get_drive_info_resolve [] demoDrive DupChoice.skip = some demoDrive) ∧
    check_for_duplicate_drive [demoPrior] demoDrive.volume_name = [demoPrior] ∧
    (∃ r, get_drive_info_resolve [demoPrior] demoDrive DupChoice.replace = some r ∧
      r.id = demoPrior.id ∧
      (labelTruthy demoDrive.label = false → labelTruthy demoPrior.label = true →
        demoPrior.label ≠ some demoPrior.volume_name → r.label = demoPrior.label)) :=
  ⟨(resolve_drive_reconciliation [] demoDrive).1 (by decide) DupChoice.skip,
   by decide,
   (resolve_drive_reconciliation [demoPrior] demoDrive).2 demoPrior (by decide)⟩

/- ### C7: extraction supervisor cleanup and deadline -/

/-- Helper: a trace of quiet in-time iterations followed by an elapsed
deadline with the child still running makes the supervision loop time out. -/
theorem loopRun_timeout_of_deadline (timeout : Nat) (o : Obs) (rest : List Obs)
    (ho : o.poll = none) (helapsed : o.elapsed > timeout) :
    ∀ pre : List Obs,
      (∀ p ∈ pre, p.poll = none ∧ firstValidFrame p.frames = none ∧
        p.elapsed ≤ timeout) →
      loopRun timeout (pre ++ o :: rest) = RunOutcome.timedOut := by
  intro pre
  induction pre with
  | nil =>
    intro _
    simp [loopRun, ho, helapsed]
  | cons p pr ih =>
    intro hpre
    have hp := hpre p (List.mem_cons_self p pr)
    have h3 := hp.2.2
    simp only [List.cons_append, loopRun, hp.1]
    rw [if_neg (by omega)]
    simp only [hp.2.1]
    exact ih (fun q hq => hpre q (List.mem_cons_of_mem p hq))

/-- C7: the private temporary directory is removed on every exit path of
extract_single_frame; when the deadline elapses with no valid output the
child is terminated and no output path is reported; an in-time quiet trace
whose next observation exceeds the deadline really takes the timeout exit;
and a timed-out extraction leaves the store rows untouched (thumbnail paths
stay null). -/
theorem extract_cleanup_and_timeout (timeout : Nat) (finalPath : String)
    (trace : List Obs) :
    ((extract_single_frame timeout finalPath trace).tempRemoved = true) ∧
    (loopRun timeout trace = RunOutcome.timedOut →
      extract_single_frame timeout finalPath trace =
        ⟨none, true, true⟩) ∧
    (∀ pre o rest, trace = pre ++ o :: rest →
      (∀ p ∈ pre, p.poll = none ∧ firstValidFrame p.frames = none ∧
        p.elapsed ≤ timeout) →
      o.poll = none → o.elapsed > timeout →
      loopRun timeout trace = RunOutcome.timedOut) ∧
    (∀ rows ids chunkOk, loopRun timeout trace = RunOutcome.timedOut →
      applyGroupThumbnail rows ids
        (extract_single_frame timeout finalPath trace).result chunkOk = rows) := by
  have hrm : (extract_single_frame timeout finalPath trace).tempRemoved = true := by
    unfold extract_single_frame
    cases h : loopRun timeout trace with
    | found f => rfl
    | timedOut => rfl
    | exited code fs =>
      dsimp only
      by_cases hc : code = 0
      · rw [if_pos hc]
        cases firstValidFrame fs <;> rfl
      · rw [if_neg hc]
    | incomplete => rfl
  have hto : loopRun timeout trace = RunOutcome.timedOut →
      extract_single_frame timeout finalPath trace = ⟨none, true, true⟩ := by
    intro h
    unfold extract_single_frame
    rw [h]
  refine ⟨hrm, hto, ?_, ?_⟩
  · intro pre o rest htr hpre ho helapsed
    rw [htr]
    exact loopRun_timeout_of_deadline timeout o rest ho helapsed pre hpre
  · intro rows ids chunkOk h
    rw [hto h]
    rfl

/-- C7 witness: a run that stays quiet for one poll and exceeds the 300
second deadline on the next times out, terminates the child, removes the
temporary directory, reports no output path, and leaves a store row without
a thumbnail untouched. -/
theorem extract_cleanup_and_timeout_witness :
    loopRun 300 [⟨none, 0, []⟩, ⟨none, 301, []⟩] = RunOutcome.timedOut ∧
    extract_single_frame 300 ("F") [⟨none, 0, []⟩, ⟨none, 301, []⟩] =
      ⟨none, true, true⟩ ∧
    applyGroupThumbnail [⟨"f1", none⟩] ["f1"]
      (extract_single_frame 300 ("F") [⟨none, 0, []⟩, ⟨none, 301, []⟩]).result
      (fun _ => true) = [⟨"f1", none⟩] :=
  let T := extract_cleanup_and_timeout 300 ("F") [⟨none, 0, []⟩, ⟨none, 301, []⟩]
  have h1 : loopRun 300 [⟨none, 0, []⟩, ⟨none, 301, []⟩] = RunOutcome.timedOut :=
    T.2.2.1 [⟨none, 0, []⟩] ⟨none, 301, []⟩ [] rfl (by decide) (by decide) (by decide)
  ⟨h1, T.2.1 h1, T.2.2.2 [⟨"f1", none⟩] ["f1"] (fun _ => true) h1⟩

/- ### Helper lemmas on the batch thumbnail updater -/

theorem setThumb_nil (rows : List TRow) (t : String) : setThumb rows [] t = rows := by
  unfold setThumb
  simp

theorem matchedCount_nil (rows : List TRow) : matchedCount rows [] = 0 := by
  unfold matchedCount
  simp

theorem setThumb_setThumb (rows : List TRow) (a b : List String) (t : String) :
    setThumb (setThumb rows a t) b t = setThumb rows (a ++ b) t := by
  induction rows with
  | nil => rfl
  | cons r rs ih =>
    by_cases ha : r.id ∈ a <;> by_cases hb : r.id ∈ b <;>
      simp [setThumb, ha, hb, List.mem_append] at ih ⊢ <;> exact ih

theorem matchedCount_setThumb (rows : List TRow) (a b : List String) (t : String) :
    matchedCount (setThumb rows a t) b = matchedCount rows b := by
  induction rows with
  | nil => rfl
  | cons r rs ih =>
    by_cases ha : r.id ∈ a <;> by_cases hb : r.id ∈ b <;>
      simp [setThumb, matchedCount, List.filter_cons, ha, hb] at ih ⊢ <;> exact ih

theorem matchedCount_cons (r : TRow) (rs : List TRow) (ids : List String) :
    matchedCount (r :: rs) ids = (if r.id ∈ ids then 1 else 0) + matchedCount rs ids := by
  by_cases h : r.id ∈ ids <;> simp [matchedCount, List.filter_cons, h] <;> omega

theorem matchedCount_append (rows : List TRow) (a b : List String)
    (h : ∀ x ∈ a, x ∉ b) :
    matchedCount rows (a ++ b) = matchedCount rows a + matchedCount rows b := by
  induction rows with
  | nil => simp [matchedCount]
  | cons r rs ih =>
    rw [matchedCount_cons, matchedCount_cons, matchedCount_cons, ih]
    by_cases ha : r.id ∈ a
    · have hb : r.id ∉ b := h _ ha
      simp [List.mem_append, ha, hb]
      omega
    · by_cases hb : r.id ∈ b <;> simp [List.mem_append, ha, hb] <;> omega

theorem succOf_nil (chunkOk : Nat → Bool) : succOf chunkOk [] = [] := rfl

theorem succOf_cons_pos (chunkOk : Nat → Bool) (ib : Nat × List String)
    (tl : List (Nat × List String)) (h : chunkOk ib.1 = true) :
    succOf chunkOk (ib :: tl) = ib.2 ++ succOf chunkOk tl := by
  simp [succOf, List.filter_cons, h]

theorem succOf_cons_neg (chunkOk : Nat → Bool) (ib : Nat × List String)
    (tl : List (Nat × List String)) (h : chunkOk ib.1 = false) :
    succOf chunkOk (ib :: tl) = succOf chunkOk tl := by
  simp [succOf, List.filter_cons, h]

theorem mem_succOf (chunkOk : Nat → Bool) (cl : List (Nat × List String))
    (x : String) (hx : x ∈ succOf chunkOk cl) : ∃ ib ∈ cl, x ∈ ib.2 := by
  unfold succOf at hx
  rw [List.mem_flatten] at hx
  obtain ⟨l, hl, hxl⟩ := hx
  rw [List.mem_map] at hl
  obtain ⟨ib, hib, rfl⟩ := hl
  exact ⟨ib, List.mem_of_mem_filter hib, hxl⟩

theorem upd_foldl_char (t : String) (chunkOk : Nat → Bool) :
    ∀ (cl : List (Nat × List String)) (rows : List TRow) (S : List String) (n : Nat),
      cl.foldl (updStep t chunkOk) (setThumb rows S t, n) =
        (setThumb rows (S ++ succOf chunkOk cl) t, n + sumMatched rows chunkOk cl) := by
  intro cl
  induction cl with
  | nil =>
    intro rows S n
    simp [succOf, sumMatched]
  | cons ib tl ih =>
    intro rows S n
    cases hc : chunkOk ib.1 with
    | true =>
      simp only [List.foldl_cons, updStep, hc, if_true]
      rw [setThumb_setThumb, matchedCount_setThumb,
        ih rows (S ++ ib.2) (n + matchedCount rows ib.2),
        succOf_cons_pos chunkOk ib tl hc]
      simp [sumMatched, hc, List.append_assoc, Nat.add_assoc]
    | false =>
      simp only [List.foldl_cons, updStep, hc, Bool.false_eq_true, if_false]
      rw [ih rows S n, succOf_cons_neg chunkOk ib tl hc]
      simp [sumMatched, hc]

theorem update_eq (rows : List TRow) (ids : List String) (t : String)
    (chunkOk : Nat → Bool) :
    update_thumbnails_for_rdc_group rows ids t chunkOk =
      (setThumb rows (successIds ids chunkOk) t,
       sumMatched rows chunkOk ((Redline.chunksOf 100 ids).enum)) := by
  unfold update_thumbnails_for_rdc_group
  by_cases h : ids = []
  · subst h
    have hc : Redline.chunksOf 100 ([] : List String) = [] := rfl
    simp [successIds, succOf, hc, sumMatched, setThumb_nil]
  · rw [if_neg h]
    have hch := upd_foldl_char t chunkOk ((Redline.chunksOf 100 ids).enum) rows [] 0
    rw [setThumb_nil] at hch
    rw [hch]
    simp [successIds]

theorem sumMatched_eq (rows : List TRow) (chunkOk : Nat → Bool) :
    ∀ cl : List (Nat × List String),
      List.Pairwise (fun a b => List.Disjoint a.2 b.2) cl →
      sumMatched rows chunkOk cl = matchedCount rows (succOf chunkOk cl) := by
  intro cl
  induction cl with
  | nil =>
    intro _
    simp [sumMatched, succOf, matchedCount]
  | cons ib tl ih =>
    intro hp
    rw [List.pairwise_cons] at hp
    cases hc : chunkOk ib.1 with
    | true =>
      have hdisj : ∀ x ∈ ib.2, x ∉ succOf chunkOk tl := by
        intro x hx hmem
        obtain ⟨jb, hjb, hxj⟩ := mem_succOf chunkOk tl x hmem
        exact hp.1 jb hjb hx hxj
      rw [succOf_cons_pos chunkOk ib tl hc,
        matchedCount_append rows ib.2 (succOf chunkOk tl) hdisj, ← ih hp.2]
      simp [sumMatched, hc]
    | false =>
      rw [succOf_cons_neg chunkOk ib tl hc, ← ih hp.2]
      simp [sumMatched, hc]

theorem enum_chunks_disjoint (ids : List String) (h : ids.Nodup) :
    List.Pairwise (fun a b => List.Disjoint a.2 b.2)
      ((Redline.chunksOf 100 ids).enum) := by
  have hflat : (Redline.chunksOf 100 ids).flatten = ids :=
    chunksOf_flatten 100 ids (by omega)
  have hnd : (Redline.chunksOf 100 ids).flatten.Nodup := by
    rw [hflat]
    exact h
  have hpw : List.Pairwise List.Disjoint (Redline.chunksOf 100 ids) :=
    (List.nodup_flatten.mp hnd).2
  rw [← List.enum_map_snd (Redline.chunksOf 100 ids)] at hpw
  exact List.pairwise_map.mp hpw

/- ### C6: chunked batch updates with per-chunk commits -/

/-- C6: the batch thumbnail update splits its id list into chunks of at
most 100; each chunk commits on its own, so with any pattern of per-chunk
failures the resulting store applies the thumbnail exactly to the ids of the
successful chunks (a failure in chunk K leaves every other committed chunk
in place), and the returned count is the number of rows those committed
chunks actually matched. -/
theorem batch_update_chunked (rows : List TRow) (ids : List String)
    (t : String) (chunkOk : Nat → Bool) :
    (∀ b ∈ Redline.chunksOf 100 ids, b.length ≤ 100) ∧
    (ids.Nodup →
      update_thumbnails_for_rdc_group rows ids t chunkOk =
        (setThumb rows (successIds ids chunkOk) t,
         matchedCount rows (successIds ids chunkOk))) := by
  constructor
  · intro b hb
    exact chunksOf_mem_len 100 ids b hb
  · intro h
    rw [update_eq, sumMatched_eq rows chunkOk _ (enum_chunks_disjoint ids h)]
    rfl

/-- C6 witness: three distinct ids in one failing chunk commit nothing and
report zero updated rows, matching the committed-chunk characterization. -/
theorem batch_update_chunked_witness :
    (["a", "b", "c"] : List String).Nodup ∧
    update_thumbnails_for_rdc_group [⟨"a", none⟩, ⟨"b", none⟩, ⟨"c", none⟩]
      ["a", "b", "c"] ("T") (fun _ => false) =
      (setThumb [⟨"a", none⟩, ⟨"b", none⟩, ⟨"c", none⟩]
        (successIds ["a", "b", "c"] (fun _ => false)) ("T"),
       matchedCount [⟨"a", none⟩, ⟨"b", none⟩, ⟨"c", none⟩]
        (successIds ["a", "b", "c"] (fun _ => false))) :=
  ⟨by decide,
   (batch_update_chunked [⟨"a", none⟩, ⟨"b", none⟩, ⟨"c", none⟩]
     ["a", "b", "c"] ("T") (fun _ => false)).2 (by decide)⟩

/- ### C5: one thumbnail for the whole group, or none at all -/

/-- C5 as stated fails on the code: with a successful extraction but a
failing database chunk commit, the rollback of that chunk leaves the sole
group member without a thumbnail even though extraction succeeded. -/
theorem group_thumbnail_counterexample :
    ¬ (∀ r ∈ applyGroupThumbnail [⟨"f1", none⟩] ["f1"] (some ("T"))
        (fun _ => false), r.thumb = some ("T")) := by
  decide

theorem succ_all (ids : List String) (chunkOk : Nat → Bool)
    (h : ∀ i, chunkOk i = true) : successIds ids chunkOk = ids := by
  unfold successIds succOf
  have hfil : ((Redline.chunksOf 100 ids).enum).filter (fun ib => chunkOk ib.1) =
      (Redline.chunksOf 100 ids).enum :=
    List.filter_eq_self.mpr (fun ib _ => h ib.1)
  rw [hfil, List.enum_map_snd, chunksOf_flatten 100 ids (by omega)]

theorem mem_setThumb_applied (rows : List TRow) (ids : List String) (t : String) :
    ∀ r ∈ setThumb rows ids t, r.id ∈ ids → r.thumb = some t := by
  intro r hr hid
  unfold setThumb at hr
  rw [List.mem_map] at hr
  obtain ⟨r0, hr0, rfl⟩ := hr
  by_cases h0 : r0.id ∈ ids
  · simp [h0]
  · rw [if_neg h0] at hid
    exact absurd hid h0

/-- C5 amended: for a group none of whose member rows carried a thumbnail
before the run, a successful extraction whose database update commits every
chunk gives every member row the identical thumbnail path, and a failed
extraction leaves the store untouched so that no member row carries a
thumbnail path. -/
theorem group_thumbnail_all_or_none (rows : List TRow) (memberIds : List String)
    (t : String) (chunkOk : Nat → Bool)
    (hclean : ∀ r ∈ rows, r.thumb = none)
    (hok : ∀ i, chunkOk i = true) :
    (∀ r ∈ applyGroupThumbnail rows memberIds (some t) chunkOk,
      r.id ∈ memberIds → r.thumb = some t) ∧
    (applyGroupThumbnail rows memberIds none chunkOk = rows) ∧
    (∀ r ∈ applyGroupThumbnail rows memberIds none chunkOk, r.thumb = none) := by
  refine ⟨?_, rfl, ?_⟩
  · intro r hr hid
    have h1 : applyGroupThumbnail rows memberIds (some t) chunkOk =
        setThumb rows (successIds memberIds chunkOk) t := by
      show (update_thumbnails_for_rdc_group rows memberIds t chunkOk).1 = _
      rw [update_eq]
    rw [h1, succ_all memberIds chunkOk hok] at hr
    exact mem_setThumb_applied rows memberIds t r hr hid
  · intro r hr
    exact hclean r hr

/-- C5 witness: a two-member group with committing chunks has both member
rows carry the extracted thumbnail path. -/
theorem group_thumbnail_all_or_none_witness :
    (∀ r ∈ ([⟨"f1", none⟩, ⟨"f2", none⟩] : List TRow), r.thumb = none) ∧
    (∀ r ∈ applyGroupThumbnail [⟨"f1", none⟩, ⟨"f2", none⟩] ["f1", "f2"]
        (some ("T")) (fun _ => true),
      r.id ∈ (["f1", "f2"] : List String) → r.thumb = some ("T")) :=
  ⟨by decide,
   (group_thumbnail_all_or_none [⟨"f1", none⟩, ⟨"f2", none⟩] ["f1", "f2"]
     ("T") (fun _ => true) (by decide) (fun _ => rfl)).1⟩

/- ### C4: representative selection takes the middle of the sorted group -/

/-- C4: on every non-empty group the source selection routine computes the
specification algorithm (sort by filename, filter to the main-camera
pattern with fallback to the unfiltered sorted list, take the middle
index); in particular a group of five conforming chunks yields the element
at index 2 of the sorted member list. -/
theorem representative_middle_of_sorted (g : List RFile) (hne : g ≠ []) :
    (select_representative_r3d g = specRepresentative g) ∧
    (g.length = 5 → (∀ e ∈ g, mainPat e.path.base = true) →
      select_representative_r3d g = (sortByBase g)[2]?) := by
  have heq : select_representative_r3d g = specRepresentative g := by
    match g with
    | [] => exact absurd rfl hne
    | [e] =>
      show some e = specRepresentative [e]
      unfold specRepresentative sortByBase
      simp only [sortBy, insIn]
      by_cases h : mainPat e.path.base = true <;> simp [h]
    | a :: b :: t => rfl
  refine ⟨heq, ?_⟩
  intro hlen hall
  rw [heq]
  unfold specRepresentative
  have hfil : (sortByBase g).filter (fun e => mainPat e.path.base) = sortByBase g :=
    List.filter_eq_self.mpr (fun e he => hall e ((mem_sortBy baseLe e g).mp he))
  have hlen2 : (sortByBase g).length = 5 := by
    unfold sortByBase
    rw [length_sortBy]
    exact hlen
  simp only [hfil, ite_self]
  rw [hlen2]

/-- C4 witness: five conforming chunks listed out of order select the
sorted element at index 2. -/
theorem representative_middle_of_sorted_witness :
    demoGroup5 ≠ [] ∧ demoGroup5.length = 5 ∧
    (∀ e ∈ demoGroup5, mainPat e.path.base = true) ∧
    select_representative_r3d demoGroup5 = (sortByBase demoGroup5)[2]? :=
  ⟨by decide, by decide, by decide,
   (representative_middle_of_sorted demoGroup5 (by decide)).2 (by decide) (by decide)⟩

/- ### Helper lemmas on grouping dictionaries -/

theorem cnt_append (x : RFile) (a b : List RFile) :
    cnt x (a ++ b) = cnt x a + cnt x b := by
  induction a with
  | nil => simp [cnt]
  | cons y t ih =>
    show (if y = x then 1 else 0) + cnt x (t ++ b) =
      ((if y = x then 1 else 0) + cnt x t) + cnt x b
    rw [ih]
    omega

theorem cnt_of_not_mem (x : RFile) (l : List RFile) (h : x ∉ l) : cnt x l = 0 := by
  induction l with
  | nil => rfl
  | cons y t ih =>
    simp only [List.mem_cons, not_or] at h
    have hyx : ¬ y = x := fun hh => h.1 hh.symm
    simp [cnt, hyx, ih h.2]

theorem mem_cnt_pos (x : RFile) (l : List RFile) (h : x ∈ l) : 0 < cnt x l := by
  induction l with
  | nil => simp at h
  | cons y t ih =>
    rcases List.mem_cons.mp h with h1 | h1
    · subst h1
      simp [cnt]
    · have := ih h1
      simp only [cnt]
      omega

theorem cnt_nodup_one (x : RFile) (l : List RFile) (hnd : l.Nodup) (hx : x ∈ l) :
    cnt x l = 1 := by
  induction l with
  | nil => simp at hx
  | cons y t ih =>
    rw [List.nodup_cons] at hnd
    rcases List.mem_cons.mp hx with h | h
    · have hyt : y ∉ t := hnd.1
      have hxt : x ∉ t := by
        rw [h]
        exact hyt
      simp [cnt, h.symm, cnt_of_not_mem x t hxt]
    · by_cases hyx : y = x
      · rw [hyx] at hnd
        exact absurd h hnd.1
      · simp [cnt, hyx, ih hnd.2 h]

theorem memCount_cons (k : String) (v : List RFile) (t : Groups) (x : RFile) :
    memCount ((k, v) :: t) x = cnt x v + memCount t x := rfl

theorem memCount_dictAppend (d : Groups) (k : String) (e : RFile) (x : RFile) :
    memCount (dictAppend d k e) x = memCount d x + (if e = x then 1 else 0) := by
  induction d with
  | nil =>
    by_cases he : e = x <;> simp [dictAppend, memCount, cnt, he]
  | cons kv t ih =>
    obtain ⟨k2, v⟩ := kv
    by_cases h : k2 = k
    · subst h
      by_cases he : e = x <;>
        simp [dictAppend, memCount_cons, cnt_append, cnt, he] <;> omega
    · simp only [dictAppend, if_neg h, memCount_cons, ih]
      omega

theorem mem_keysG_dictAppend (d : Groups) (k : String) (e : RFile) (s : String) :
    s ∈ keysG (dictAppend d k e) ↔ s ∈ keysG d ∨ s = k := by
  induction d with
  | nil => simp [dictAppend, keysG]
  | cons kv t ih =>
    obtain ⟨k2, v⟩ := kv
    by_cases h : k2 = k
    · simp only [dictAppend, if_pos h, keysG, List.map_cons, List.mem_cons]
      subst h
      tauto
    · simp only [dictAppend, if_neg h, keysG, List.map_cons, List.mem_cons]
      simp only [keysG] at ih
      rw [ih]
      tauto

theorem mem_keysG_dictSet (d : Groups) (k : String) (v : List RFile) (s : String) :
    s ∈ keysG (dictSet d k v) ↔ s ∈ keysG d ∨ s = k := by
  induction d with
  | nil => simp [dictSet, keysG]
  | cons kv t ih =>
    obtain ⟨k2, v2⟩ := kv
    by_cases h : k2 = k
    · simp only [dictSet, if_pos h, keysG, List.map_cons, List.mem_cons]
      subst h
      tauto
    · simp only [dictSet, if_neg h, keysG, List.map_cons, List.mem_cons]
      simp only [keysG] at ih
      rw [ih]
      tauto

theorem memCount_dictSet_new (d : Groups) (k : String) (v : List RFile)
    (h : k ∉ keysG d) (x : RFile) :
    memCount (dictSet d k v) x = memCount d x + cnt x v := by
  induction d with
  | nil =>
    simp [dictSet, memCount]
  | cons kv t ih =>
    obtain ⟨k2, v2⟩ := kv
    simp only [keysG, List.map_cons, List.mem_cons, not_or] at h
    have hne : ¬ k2 = k := fun hh => h.1 hh.symm
    have ht : k ∉ keysG t := h.2
    simp only [dictSet, if_neg hne, memCount_cons, ih ht]
    omega

theorem lookupG_dictSet_self (d : Groups) (k : String) (v : List RFile) :
    lookupG (dictSet d k v) k = some v := by
  induction d with
  | nil => simp [dictSet, lookupG]
  | cons kv t ih =>
    obtain ⟨k2, v2⟩ := kv
    by_cases h : k2 = k <;> simp [dictSet, lookupG, h, ih]

theorem lookupG_dictAppend_ne (d : Groups) (k2 k : String) (e : RFile)
    (h : k2 ≠ k) : lookupG (dictAppend d k2 e) k = lookupG d k := by
  induction d with
  | nil => simp [dictAppend, lookupG, h]
  | cons kv t ih =>
    obtain ⟨k3, v⟩ := kv
    by_cases h3 : k3 = k2
    · subst h3
      simp [dictAppend, lookupG, h]
    · simp [dictAppend, h3, lookupG, ih]

theorem lookupG_dictSet_ne (d : Groups) (k2 k : String) (v : List RFile)
    (h : k2 ≠ k) : lookupG (dictSet d k2 v) k = lookupG d k := by
  induction d with
  | nil => simp [dictSet, lookupG, h]
  | cons kv t ih =>
    obtain ⟨k3, v2⟩ := kv
    by_cases h3 : k3 = k2
    · subst h3
      simp [dictSet, lookupG, h]
    · simp [dictSet, h3, lookupG, ih]

theorem memCount_groupFold :
    ∀ (fs : List RFile) (d : Groups),
      (∀ e ∈ fs, singleKey e ∉ keysG d) →
      (∀ e ∈ fs, ∀ z ∈ fs, ∀ k, get_rdc_group_key z.path = some k →
        k ≠ singleKey e) →
      List.Pairwise (fun a b => singleKey a ≠ singleKey b) fs →
      ∀ x, memCount (fs.foldl groupStep d) x = memCount d x + cnt x fs := by
  intro fs
  induction fs with
  | nil =>
    intro d _ _ _ x
    simp [cnt]
  | cons e rest ih =>
    intro d ha hb hp x
    rw [List.foldl_cons, List.pairwise_cons] at *
    cases hkey : get_rdc_group_key e.path with
    | some k =>
      have hstep : groupStep d e = dictAppend d k e := by
        simp [groupStep, hkey]
      have ha2 : ∀ e2 ∈ rest, singleKey e2 ∉ keysG (dictAppend d k e) := by
        intro e2 he2 hmem
        rcases (mem_keysG_dictAppend d k e (singleKey e2)).mp hmem with hin | heq
        · exact ha e2 (List.mem_cons_of_mem e he2) hin
        · exact hb e2 (List.mem_cons_of_mem e he2) e (List.mem_cons_self e rest)
            k hkey heq.symm
      have hb2 : ∀ e2 ∈ rest, ∀ z ∈ rest, ∀ k2, get_rdc_group_key z.path = some k2 →
          k2 ≠ singleKey e2 :=
        fun e2 he2 z hz k2 hk2 =>
          hb e2 (List.mem_cons_of_mem e he2) z (List.mem_cons_of_mem e hz) k2 hk2
      rw [hstep, ih (dictAppend d k e) ha2 hb2 hp.2 x, memCount_dictAppend]
      by_cases he : e = x <;> simp [cnt, he] <;> omega
    | none =>
      have hstep : groupStep d e = dictSet d (singleKey e) [e] := by
        simp [groupStep, hkey]
      have ha2 : ∀ e2 ∈ rest, singleKey e2 ∉ keysG (dictSet d (singleKey e) [e]) := by
        intro e2 he2 hmem
        rcases (mem_keysG_dictSet d (singleKey e) [e] (singleKey e2)).mp hmem with hin | heq
        · exact ha e2 (List.mem_cons_of_mem e he2) hin
        · exact hp.1 e2 he2 heq.symm
      have hb2 : ∀ e2 ∈ rest, ∀ z ∈ rest, ∀ k2, get_rdc_group_key z.path = some k2 →
          k2 ≠ singleKey e2 :=
        fun e2 he2 z hz k2 hk2 =>
          hb e2 (List.mem_cons_of_mem e he2) z (List.mem_cons_of_mem e hz) k2 hk2
      rw [hstep, ih _ ha2 hb2 hp.2 x,
        memCount_dictSet_new d (singleKey e) [e] (ha e (List.mem_cons_self e rest)) x]
      by_cases he : e = x <;> simp [cnt, he] <;> omega

theorem lookupG_groupFold_untouched :
    ∀ (fs : List RFile) (d : Groups) (k : String),
      (∀ e ∈ fs, singleKey e ≠ k) →
      (∀ e ∈ fs, ∀ k2, get_rdc_group_key e.path = some k2 → k2 ≠ k) →
      lookupG (fs.foldl groupStep d) k = lookupG d k := by
  intro fs
  induction fs with
  | nil =>
    intro d k _ _
    rfl
  | cons e rest ih =>
    intro d k h1 h2
    rw [List.foldl_cons]
    cases hkey : get_rdc_group_key e.path with
    | some k2 =>
      have hne : k2 ≠ k := h2 e (List.mem_cons_self e rest) k2 hkey
      have hstep : groupStep d e = dictAppend d k2 e := by
        simp [groupStep, hkey]
      rw [hstep,
        ih _ k (fun e2 he2 => h1 e2 (List.mem_cons_of_mem e he2))
          (fun e2 he2 => h2 e2 (List.mem_cons_of_mem e he2)),
        lookupG_dictAppend_ne d k2 k e hne]
    | none =>
      have hne : singleKey e ≠ k := h1 e (List.mem_cons_self e rest)
      have hstep : groupStep d e = dictSet d (singleKey e) [e] := by
        simp [groupStep, hkey]
      rw [hstep,
        ih _ k (fun e2 he2 => h1 e2 (List.mem_cons_of_mem e he2))
          (fun e2 he2 => h2 e2 (List.mem_cons_of_mem e he2)),
        lookupG_dictSet_ne d (singleKey e) k [e] hne]

theorem memCount_zero_filter (d : Groups) (x : RFile) (h : memCount d x = 0) :
    (d.filter (fun kv => decide (x ∈ kv.2))).length = 0 := by
  induction d with
  | nil => rfl
  | cons kv t ih =>
    obtain ⟨k, v⟩ := kv
    rw [memCount_cons] at h
    have h2 : memCount t x = 0 := by omega
    have hx : x ∉ v := by
      intro hmem
      have := mem_cnt_pos x v hmem
      omega
    simp [List.filter_cons, hx, ih h2]

theorem memCount_one_filter (d : Groups) (x : RFile) (h : memCount d x = 1) :
    (d.filter (fun kv => decide (x ∈ kv.2))).length = 1 := by
  induction d with
  | nil => simp [memCount] at h
  | cons kv t ih =>
    obtain ⟨k, v⟩ := kv
    rw [memCount_cons] at h
    by_cases hx : x ∈ v
    · have h1 := mem_cnt_pos x v hx
      have h2 : memCount t x = 0 := by omega
      simp [List.filter_cons, hx, memCount_zero_filter t x h2]
    · have h1 : cnt x v = 0 := cnt_of_not_mem x v hx
      have h2 : memCount t x = 1 := by omega
      simp [List.filter_cons, hx, ih h2]

/- ### C3: the grouping key and the one-group-per-file invariant -/

/-- C3: for an r3d file the grouping key is computed exactly as specified:
no RDC-like directory segment means no key (the file later forms its own
singleton group under its synthetic single key), an RDC segment with a
matching clip prefix yields folder underscore prefix, an RDC segment
without a match yields the folder name alone; and under distinct file ids
(with no synthetic-key collision) every file of the query result lies in
exactly one group of the resulting dictionary. -/
theorem rdc_grouping_spec (fs : List RFile)
    (hp : List.Pairwise (fun a b => singleKey a ≠ singleKey b) fs)
    (hnc : ∀ e ∈ fs, ∀ z ∈ fs, ∀ k, get_rdc_group_key z.path = some k →
      k ≠ singleKey e) :
    ((∀ p : RPath, isR3dName p.base = true →
        ((findRdc p.dirs = none ↔ ∀ s ∈ p.dirs, isRdcSeg s = false) ∧
         (findRdc p.dirs = none → get_rdc_group_key p = none) ∧
         (∀ f, findRdc p.dirs = some f → clipPrefOf p.base = none →
            get_rdc_group_key p = some f) ∧
         (∀ f c, findRdc p.dirs = some f → clipPrefOf p.base = some c →
            get_rdc_group_key p = some (f ++ "_" ++ c)))) ∧
     (∀ x ∈ fs, get_rdc_group_key x.path = none →
        lookupG (group_r3d_files_by_rdc fs) (singleKey x) = some [x]) ∧
     (∀ x ∈ fs,
        ((group_r3d_files_by_rdc fs).filter
          (fun kv => decide (x ∈ kv.2))).length = 1)) := by
  refine ⟨?_, ?_, ?_⟩
  · intro p hr
    refine ⟨?_, ?_, ?_, ?_⟩
    · unfold findRdc
      rw [List.find?_eq_none]
      constructor
      · intro h s hs
        simpa using h s hs
      · intro h s hs
        simp [h s hs]
    · intro hnone
      unfold get_rdc_group_key
      simp [hr, hnone]
    · intro f hf hcp
      unfold get_rdc_group_key
      simp [hr, hf, hcp]
    · intro f c hf hcp
      unfold get_rdc_group_key
      simp [hr, hf, hcp]
  · intro x hx hkey
    obtain ⟨pre, post, rfl⟩ := List.append_of_mem hx
    unfold group_r3d_files_by_rdc
    rw [List.foldl_append, List.foldl_cons]
    have hstep : groupStep (pre.foldl groupStep []) x =
        dictSet (pre.foldl groupStep []) (singleKey x) [x] := by
      simp [groupStep, hkey]
    have hpost : ∀ e ∈ post, singleKey x ≠ singleKey e :=
      (List.pairwise_cons.mp (List.pairwise_append.mp hp).2.1).1
    rw [hstep,
      lookupG_groupFold_untouched post _ (singleKey x)
        (fun e he => (hpost e he).symm)
        (fun e he k2 hk2 =>
          hnc x hx e (List.mem_append_right pre (List.mem_cons_of_mem x he)) k2 hk2),
      lookupG_dictSet_self _ (singleKey x) [x]]
  · intro x hx
    have hcount : memCount (group_r3d_files_by_rdc fs) x = 1 := by
      unfold group_r3d_files_by_rdc
      rw [memCount_groupFold fs []
        (fun e _ hmem => absurd hmem (List.not_mem_nil (singleKey e))) hnc hp x]
      have hnd : fs.Nodup :=
        List.Pairwise.imp (fun h heq => h (congrArg singleKey heq)) hp
      rw [cnt_nodup_one x fs hnd hx]
      rfl
    exact memCount_one_filter _ x hcount

/-- C3 witness: one conforming chunk inside an RDC folder and one loose r3d
file: the chunk keys to folder underscore prefix, the loose file forms its
own singleton group, and each of the two files lies in exactly one group. -/
theorem rdc_grouping_spec_witness :
    (List.Pairwise (fun a b => singleKey a ≠ singleKey b) demoFiles ∧
      get_rdc_group_key demoR1.path = some ("A001_0525.RDC_A001_C001") ∧
      get_rdc_group_key demoR2.path = none) ∧
    lookupG (group_r3d_files_by_rdc demoFiles) (singleKey demoR2) = some [demoR2] ∧
    ((group_r3d_files_by_rdc demoFiles).filter
      (fun kv => decide (demoR1 ∈ kv.2))).length = 1 :=
  ⟨by decide,
   (rdc_grouping_spec demoFiles (by decide) (by decide)).2.1 demoR2 (by decide) (by decide),
   (rdc_grouping_spec demoFiles (by decide) (by decide)).2.2 demoR1 (by decide)⟩

/- ### Helper lemmas on the transcription pool -/

theorem setStatus_idmap (fs : List FileRow) (i : Nat) (st : String) :
    (setStatus fs i st).map (fun r => r.id) = fs.map (fun r => r.id) := by
  unfold setStatus
  rw [List.map_map]
  apply List.map_congr_left
  intro r _
  by_cases h : r.id = i <;> simp [h]

theorem pendingIds_nodup (fs : List FileRow) (h : idsNodup fs) :
    (pendingIds fs).Nodup := by
  unfold idsNodup at h
  unfold pendingIds
  have hperm :
      List.Perm
        ((sortBy (fun a b => decide (a.size_bytes ≤ b.size_bytes))
          (fs.filter (fun r => decide (r.transcription_status = some ("pending"))))).map
            (fun r => r.id))
        ((fs.filter (fun r => decide (r.transcription_status = some ("pending")))).map
          (fun r => r.id)) :=
    (perm_sortBy _ _).map _
  have hsub :
      ((fs.filter (fun r => decide (r.transcription_status = some ("pending")))).map
        (fun r => r.id)).Sublist (fs.map (fun r => r.id)) :=
    (List.filter_sublist fs).map _
  exact hperm.symm.nodup (hsub.nodup h)

theorem tstep_idmap (fs : List FileRow) (t : TState) (so tro : Nat → Bool) :
    ((tstep fs t so tro).1).map (fun r => r.id) = fs.map (fun r => r.id) := by
  obtain ⟨q, infl, cl, dn⟩ := t
  cases q with
  | none => rfl
  | some l =>
    cases infl with
    | some i =>
      cases l with
      | nil => exact setStatus_idmap fs i _
      | cons a rest => exact setStatus_idmap fs i _
    | none =>
      cases l with
      | nil => rfl
      | cons i rest =>
        by_cases h : so i = true
        · show ((if so i = true then _ else _ : List FileRow × TState).1).map
            (fun r => r.id) = _
          rw [if_pos h]
          exact setStatus_idmap fs i ("processing")
        · show ((if so i = true then _ else _ : List FileRow × TState).1).map
            (fun r => r.id) = _
          rw [if_neg h]
          exact setStatus_idmap fs i ("error")

theorem tstep_tinv (fs : List FileRow) (t : TState) (so tro : Nat → Bool)
    (hids : idsNodup fs) (ht : TInv t) : TInv (tstep fs t so tro).2 := by
  obtain ⟨q, infl, cl, dn⟩ := t
  cases q with
  | none =>
    have hcl : cl = [] := ht
    subst hcl
    exact ⟨List.nodup_nil, pendingIds_nodup fs hids,
      fun i hi => absurd hi (List.not_mem_nil i)⟩
  | some l =>
    cases infl with
    | some i =>
      cases l with
      | nil => exact ht
      | cons a rest => exact ht
    | none =>
      cases l with
      | nil => exact ht
      | cons i rest =>
        obtain ⟨h1, h2, h3⟩ := ht
        rw [List.nodup_cons] at h2
        have hi : i ∉ cl := fun hin => h3 i hin (List.mem_cons_self i rest)
        by_cases h : so i = true
        · show TInv ((if so i = true then _ else _ : List FileRow × TState).2)
          rw [if_pos h]
          refine ⟨?_, h2.2, ?_⟩
          · rw [List.nodup_append]
            exact ⟨h1, List.nodup_singleton i,
              fun a ha hb => by
                rw [List.mem_singleton] at hb
                exact hi (hb ▸ ha)⟩
          · intro j hj
            rcases List.mem_append.mp hj with hj | hj
            · exact fun hr => h3 j hj (List.mem_cons_of_mem i hr)
            · rw [List.mem_singleton] at hj
              subst hj
              exact h2.1
        · show TInv ((if so i = true then _ else _ : List FileRow × TState).2)
          rw [if_neg h]
          exact ⟨h1, h2.2, fun j hj hr => h3 j hj (List.mem_cons_of_mem i hr)⟩

theorem sysStep_inv (so tro : Nat → Bool) (s : Sys) (who : Bool)
    (h : SysInv s) : SysInv (sysStep so tro s who) := by
  obtain ⟨hids, h0, h1⟩ := h
  cases who with
  | false =>
    refine ⟨?_, ?_, ?_⟩
    · show idsNodup (tstep s.files s.t0 so tro).1
      unfold idsNodup
      rw [tstep_idmap]
      exact hids
    · show TInv (tstep s.files s.t0 so tro).2
      exact tstep_tinv s.files s.t0 so tro hids h0
    · show TInv s.t1
      exact h1
  | true =>
    refine ⟨?_, ?_, ?_⟩
    · show idsNodup (tstep s.files s.t1 so tro).1
      unfold idsNodup
      rw [tstep_idmap]
      exact hids
    · show TInv s.t0
      exact h0
    · show TInv (tstep s.files s.t1 so tro).2
      exact tstep_tinv s.files s.t1 so tro hids h1

theorem runSched_inv (so tro : Nat → Bool) :
    ∀ (sched : List Bool) (s : Sys), SysInv s → SysInv (runSched s sched so tro) := by
  intro sched
  induction sched with
  | nil =>
    intro s h
    exact h
  | cons b tl ih =>
    intro s h
    show SysInv (List.foldl (sysStep so tro) (sysStep so tro s b) tl)
    exact ih _ (sysStep_inv so tro s b h)

theorem tinv_claimed_nodup (t : TState) (h : TInv t) : t.claimed.Nodup := by
  obtain ⟨q, infl, cl, dn⟩ := t
  cases q with
  | none =>
    have hcl : cl = [] := h
    simp [hcl]
  | some l => exact h.1

/- ### C2: claiming a transcription job -/

/-- C2 as stated fails on the code: the claim UPDATE names only the row id
with no condition on the current status, so two pool runs that both
snapshot the pending set before either claims can both claim the same row
and both report success for its id; the second claim moreover succeeds on a
row already marked completed, regressing it to processing. -/
theorem double_claim_counterexample :
    (cxSys.t0.claimed = [1] ∧ cxSys.t1.claimed = [1]) ∧
    (cxSys.t0.done = [(1, true)] ∧ cxSys.t1.done = [(1, true)]) ∧
    statusOf cxSys4.files 1 = some ("completed") ∧
    statusOf (sysStep (fun _ => true) (fun _ => true) cxSys4 true).files 1 =
      some ("processing") := by
  decide

/-- C2 amended: the claim is one atomic status update keyed only by the
file id and it succeeds whatever the current status; within a single pool
run over a store with distinct file ids every file is claimed at most once
(under any interleaving each run claims a duplicate-free id list), but two
overlapping runs can both claim and both complete the same row. -/
theorem claim_at_most_once_per_run (fs0 : List FileRow) (sched : List Bool)
    (so tro : Nat → Bool) (h : idsNodup fs0) :
    (runSched ⟨fs0, initT, initT⟩ sched so tro).t0.claimed.Nodup ∧
    (runSched ⟨fs0, initT, initT⟩ sched so tro).t1.claimed.Nodup := by
  have hinv : SysInv (runSched ⟨fs0, initT, initT⟩ sched so tro) :=
    runSched_inv so tro sched ⟨fs0, initT, initT⟩ ⟨h, rfl, rfl⟩
  exact ⟨tinv_claimed_nodup _ hinv.2.1, tinv_claimed_nodup _ hinv.2.2⟩

/-- C2 witness: the double-snapshot schedule over one pending row keeps
each individual run claiming the row only once. -/
theorem claim_at_most_once_per_run_witness :
    idsNodup [cxRow] ∧
    ((runSched ⟨[cxRow], initT, initT⟩ [false, true, false, false, true, true]
        (fun _ => true) (fun _ => true)).t0.claimed.Nodup ∧
     (runSched ⟨[cxRow], initT, initT⟩ [false, true, false, false, true, true]
        (fun _ => true) (fun _ => true)).t1.claimed.Nodup) :=
  ⟨by unfold idsNodup; decide,
   claim_at_most_once_per_run [cxRow] [false, true, false, false, true, true]
     (fun _ => true) (fun _ => true) (by unfold idsNodup; decide)⟩

